import Mathlib

set_option autoImplicit false

/-!
Verification of the JSON diff core of diffrs (src/main.rs).

The embedding mirrors the Rust source:
  * `JValue` models `serde_json::Value` (numbers modelled as `Int`);
    `serde_json` objects are `BTreeMap`s, modelled here as association
    lists with first-match lookup.
  * `render` models `serde_json`'s compact `Display` for `Value`.
  * `StyledLine` models one `ratatui` `Span`-line: text plus foreground color.
  * `diff_json_values` models `fn diff_json_values` (main.rs lines 222-251).
  * `step` models one iteration of the key-event loop in `run_diff_app`
    (main.rs lines 85-120), with file I/O and parsing outcomes abstracted
    as inputs of the step.
-/

/-- Model of `serde_json::Value`. -/
inductive JValue where
  | null
  | bool (b : Bool)
  | num (n : Int)
  | str (s : String)
  | arr (elems : List JValue)
  | obj (entries : List (String × JValue))
deriving Repr

mutual

/-- Structural equality on JSON values, the model of `serde_json`
`PartialEq` on `Value` (deep equality). -/
def JValue.decEq : (a b : JValue) → Decidable (a = b)
  | .null, .null => .isTrue rfl
  | .null, .bool _ => .isFalse (fun h => JValue.noConfusion h)
  | .null, .num _ => .isFalse (fun h => JValue.noConfusion h)
  | .null, .str _ => .isFalse (fun h => JValue.noConfusion h)
  | .null, .arr _ => .isFalse (fun h => JValue.noConfusion h)
  | .null, .obj _ => .isFalse (fun h => JValue.noConfusion h)
  | .bool _, .null => .isFalse (fun h => JValue.noConfusion h)
  | .bool a, .bool b =>
      if h : a = b then .isTrue (by rw [h])
      else .isFalse (fun hh => h (by injection hh))
  | .bool _, .num _ => .isFalse (fun h => JValue.noConfusion h)
  | .bool _, .str _ => .isFalse (fun h => JValue.noConfusion h)
  | .bool _, .arr _ => .isFalse (fun h => JValue.noConfusion h)
  | .bool _, .obj _ => .isFalse (fun h => JValue.noConfusion h)
  | .num _, .null => .isFalse (fun h => JValue.noConfusion h)
  | .num _, .bool _ => .isFalse (fun h => JValue.noConfusion h)
  | .num a, .num b =>
      if h : a = b then .isTrue (by rw [h])
      else .isFalse (fun hh => h (by injection hh))
  | .num _, .str _ => .isFalse (fun h => JValue.noConfusion h)
  | .num _, .arr _ => .isFalse (fun h => JValue.noConfusion h)
  | .num _, .obj _ => .isFalse (fun h => JValue.noConfusion h)
  | .str _, .null => .isFalse (fun h => JValue.noConfusion h)
  | .str _, .bool _ => .isFalse (fun h => JValue.noConfusion h)
  | .str _, .num _ => .isFalse (fun h => JValue.noConfusion h)
  | .str a, .str b =>
      if h : a = b then .isTrue (by rw [h])
      else .isFalse (fun hh => h (by injection hh))
  | .str _, .arr _ => .isFalse (fun h => JValue.noConfusion h)
  | .str _, .obj _ => .isFalse (fun h => JValue.noConfusion h)
  | .arr _, .null => .isFalse (fun h => JValue.noConfusion h)
  | .arr _, .bool _ => .isFalse (fun h => JValue.noConfusion h)
  | .arr _, .num _ => .isFalse (fun h => JValue.noConfusion h)
  | .arr _, .str _ => .isFalse (fun h => JValue.noConfusion h)
  | .arr a, .arr b =>
      match JValue.decEqElems a b with
      | .isTrue h => .isTrue (by rw [h])
      | .isFalse h => .isFalse (fun hh => h (by injection hh))
  | .arr _, .obj _ => .isFalse (fun h => JValue.noConfusion h)
  | .obj _, .null => .isFalse (fun h => JValue.noConfusion h)
  | .obj _, .bool _ => .isFalse (fun h => JValue.noConfusion h)
  | .obj _, .num _ => .isFalse (fun h => JValue.noConfusion h)
  | .obj _, .str _ => .isFalse (fun h => JValue.noConfusion h)
  | .obj _, .arr _ => .isFalse (fun h => JValue.noConfusion h)
  | .obj a, .obj b =>
      match JValue.decEqEntries a b with
      | .isTrue h => .isTrue (by rw [h])
      | .isFalse h => .isFalse (fun hh => h (by injection hh))

/-- Structural equality on lists of JSON values. -/
def JValue.decEqElems : (a b : List JValue) → Decidable (a = b)
  | [], [] => .isTrue rfl
  | [], _ :: _ => .isFalse (fun h => List.noConfusion h)
  | _ :: _, [] => .isFalse (fun h => List.noConfusion h)
  | a :: as, b :: bs =>
      match JValue.decEq a b, JValue.decEqElems as bs with
      | .isTrue h1, .isTrue h2 => .isTrue (by rw [h1, h2])
      | .isFalse h1, _ => .isFalse (fun h => by injection h with hx ht; exact h1 hx)
      | _, .isFalse h2 => .isFalse (fun h => by injection h with hx ht; exact h2 ht)

/-- Structural equality on lists of object entries. -/
def JValue.decEqEntries : (a b : List (String × JValue)) → Decidable (a = b)
  | [], [] => .isTrue rfl
  | [], _ :: _ => .isFalse (fun h => List.noConfusion h)
  | _ :: _, [] => .isFalse (fun h => List.noConfusion h)
  | (k, v) :: as, (l, w) :: bs =>
      if hk : k = l then
        match JValue.decEq v w, JValue.decEqEntries as bs with
        | .isTrue h1, .isTrue h2 => .isTrue (by rw [hk, h1, h2])
        | .isFalse h1, _ =>
            .isFalse (fun h => by
              injection h with hp ht
              exact h1 (congrArg Prod.snd hp))
        | _, .isFalse h2 => .isFalse (fun h => by injection h with hp ht; exact h2 ht)
      else
        .isFalse (fun h => by
          injection h with hp ht
          exact hk (congrArg Prod.fst hp))

end

instance : DecidableEq JValue := JValue.decEq

/-- Model of `Value::as_object`: `Some` exactly on the object variant. -/
def JValue.as_object : JValue → Option (List (String × JValue))
  | .obj entries => some entries
  | _ => none

/-- One hex digit, lowercase, as produced by serde_json escapes. -/
def hexDigit (n : Nat) : Char :=
  if n < 10 then Char.ofNat (48 + n) else Char.ofNat (87 + n)

/-- Model of serde_json string-character escaping: quote, backslash and
control characters are escaped, everything else is kept verbatim. -/
def escapeChar (c : Char) : String :=
  if c = '"' then "\\\""
  else if c = '\\' then "\\\\"
  else if c.toNat < 0x20 then
    if c = '\x08' then "\\b"
    else if c = '\x09' then "\\t"
    else if c = '\x0a' then "\\n"
    else if c = '\x0c' then "\\f"
    else if c = '\x0d' then "\\r"
    else "\\u00" ++ String.mk [hexDigit (c.toNat / 16), hexDigit (c.toNat % 16)]
  else String.singleton c

/-- Model of serde_json escaping of a whole string body. -/
def escapeString (s : String) : String :=
  String.join (s.toList.map escapeChar)

mutual

/-- Model of the compact `Display` form of `serde_json::Value`, used by
`format!("{}", value)` in `diff_json_values`. -/
def render : JValue → String
  | .null => "null"
  | .bool b => if b then "true" else "false"
  | .num n => toString n
  | .str s => "\"" ++ escapeString s ++ "\""
  | .arr es => "[" ++ renderElems es ++ "]"
  | .obj ms => "\x7b" ++ renderEntries ms ++ "\x7d"

/-- Comma-separated compact rendering of array elements. -/
def renderElems : List JValue → String
  | [] => ""
  | [v] => render v
  | v :: w :: vs => render v ++ "," ++ renderElems (w :: vs)

/-- Comma-separated compact rendering of object entries. -/
def renderEntries : List (String × JValue) → String
  | [] => ""
  | [(k, v)] => "\"" ++ escapeString k ++ "\":" ++ render v
  | (k, v) :: e :: es =>
      "\"" ++ escapeString k ++ "\":" ++ render v ++ "," ++ renderEntries (e :: es)

end

/-- Foreground color of a rendered span: the diff engine uses
`Color::Green` and `Color::Red`; plain text has the default style. -/
inductive Color where
  | green
  | red
  | plain
deriving Repr, DecidableEq

/-- One line of styled output: model of a single-span `ratatui` line. -/
structure StyledLine where
  text : String
  color : Color
deriving Repr, DecidableEq

/-- Strict lexicographic order on character lists, the model of Rust
`Ord` on `String` (bytewise comparison orders UTF-8 strings exactly by
code points). -/
def strLtB : List Char → List Char → Bool
  | _, [] => false
  | [], _ :: _ => true
  | a :: as, b :: bs =>
      if a.toNat < b.toNat then true
      else if b.toNat < a.toNat then false
      else strLtB as bs

/-- Strict lexicographic order on strings. -/
def keyLt (x y : String) : Bool :=
  strLtB x.data y.data

/-- Ordered insertion into a sorted duplicate-free list: the effect of
`BTreeSet::insert` on the sorted list of elements. -/
def insertKey (x : String) : List String → List String
  | [] => [x]
  | y :: ys =>
      if keyLt x y then x :: y :: ys
      else if x = y then y :: ys
      else y :: insertKey x ys

/-- The sorted duplicate-free element list of the `BTreeSet` collected
from the given iteration order. -/
def keySet (l : List String) : List String :=
  l.foldl (fun acc k => insertKey k acc) []

/-- Model of `let all_keys: BTreeSet<_> = left_map.keys().chain(right_map.keys()).collect()`. -/
def allKeys (lm rm : List (String × JValue)) : List String :=
  keySet (lm.map Prod.fst ++ rm.map Prod.fst)

/-- Model of `map.get(key).cloned().unwrap_or(json!(null))`. -/
def lookupOrNull (m : List (String × JValue)) (k : String) : JValue :=
  (m.lookup k).getD JValue.null

/-- The pair of lines `diff_json_values` emits for one key of the union:
equal values give the same green line on both sides, differing values a
green left line and a red right line. -/
def diffKey (lm rm : List (String × JValue)) (k : String) : StyledLine × StyledLine :=
  let lv := lookupOrNull lm k
  let rv := lookupOrNull rm k
  if lv = rv then
    (⟨k ++ ": " ++ render lv ++ "\n", Color.green⟩,
     ⟨k ++ ": " ++ render lv ++ "\n", Color.green⟩)
  else
    (⟨k ++ ": " ++ render lv ++ "\n", Color.green⟩,
     ⟨k ++ ": " ++ render rv ++ "\n", Color.red⟩)

/-- Model of `fn diff_json_values` (main.rs lines 222-251). -/
def diff_json_values (left right : JValue) : List StyledLine × List StyledLine :=
  match left.as_object, right.as_object with
  | some lm, some rm =>
      let pairs := (allKeys lm rm).map (diffKey lm rm)
      (pairs.map Prod.fst, pairs.map Prod.snd)
  | _, _ =>
      ([⟨render left, Color.green⟩], [⟨render right, Color.red⟩])

/-- Indentation used by `serde_json::to_string_pretty`: two spaces per level. -/
def indentStr (n : Nat) : String :=
  String.join (List.replicate n "  ")

mutual

/-- Model of `serde_json::to_string_pretty` at nesting depth `d`. -/
def pretty (d : Nat) : JValue → String
  | .null => "null"
  | .bool b => if b then "true" else "false"
  | .num n => toString n
  | .str s => "\"" ++ escapeString s ++ "\""
  | .arr [] => "[]"
  | .arr (v :: vs) =>
      "[\n" ++ prettyElems (d + 1) (v :: vs) ++ "\n" ++ indentStr d ++ "]"
  | .obj [] => "\x7b\x7d"
  | .obj (e :: es) =>
      "\x7b\n" ++ prettyEntries (d + 1) (e :: es) ++ "\n" ++ indentStr d ++ "\x7d"

/-- Pretty-printed array elements, one per line, comma separated. -/
def prettyElems (d : Nat) : List JValue → String
  | [] => ""
  | [v] => indentStr d ++ pretty d v
  | v :: w :: vs => indentStr d ++ pretty d v ++ ",\n" ++ prettyElems d (w :: vs)

/-- Pretty-printed object entries, one per line, comma separated. -/
def prettyEntries (d : Nat) : List (String × JValue) → String
  | [] => ""
  | [(k, v)] => indentStr d ++ "\"" ++ escapeString k ++ "\": " ++ pretty d v
  | (k, v) :: e :: es =>
      indentStr d ++ "\"" ++ escapeString k ++ "\": " ++ pretty d v ++ ",\n" ++
        prettyEntries d (e :: es)

end

/-- Model of `ratatui` `Text::from(string)`: one plain line per newline-separated
segment. -/
def textOfString (s : String) : List StyledLine :=
  (s.splitOn "\n").map (fun l => ⟨l, Color.plain⟩)

/-- Model of the in-memory application state `struct DiffApp` (the two temp
files are not part of the state here: their parse outcomes at the moment a key
is handled enter `step` as inputs). -/
structure DiffApp where
  left_diff_result : List StyledLine
  right_diff_result : List StyledLine
  original_left_content : List StyledLine
  original_right_content : List StyledLine
  display_diff : Bool
deriving Repr, DecidableEq

/-- Model of `DiffApp::new`: empty texts, diff view off. -/
def DiffApp.new : DiffApp :=
  { left_diff_result := []
    right_diff_result := []
    original_left_content := []
    original_right_content := []
    display_diff := false }

/-- Key events the loop in `run_diff_app` distinguishes. -/
inductive KeyCode where
  | char (c : Char)
  | otherKey
deriving Repr, DecidableEq

/-- Outcomes of the external operations performed while handling one key
event: the results of parsing each side's temp file at that moment, and
whether opening the external editor succeeded. `Except.error` stands for
an `IoError` or `ParseError` from the corresponding `anyhow::Result`. -/
structure IoEnv where
  parse_left : Except Unit JValue
  parse_right : Except Unit JValue
  editor_ok : Bool

/-- Model of `fn read_json`: parse, then pretty-print for display. -/
def read_json (parsed : Except Unit JValue) : Except Unit (List StyledLine) :=
  parsed.map (fun v => textOfString (pretty 0 v))

/-- Model of `fn compare_json_files`: parse both sides, then diff. -/
def compare_json_files (env : IoEnv) :
    Except Unit (List StyledLine × List StyledLine) :=
  match env.parse_left, env.parse_right with
  | .ok l, .ok r => .ok (diff_json_values l r)
  | .error e, _ => .error e
  | .ok _, .error e => .error e

/-- Result of one iteration of the loop in `run_diff_app`: keep looping with a
new state, return `Ok(())` (quit), or return an error (which terminates the
application). -/
inductive StepResult where
  | cont (app : DiffApp)
  | exitOk
  | exitErr
deriving Repr, DecidableEq

/-- Model of one iteration of the key-event loop of `fn run_diff_app`
(main.rs lines 89-118). -/
def step (env : IoEnv) (app : DiffApp) (key : KeyCode) : StepResult :=
  match key with
  | .char 'a' =>
      if env.editor_ok then
        .cont { app with
          original_left_content := ((read_json env.parse_left).toOption).getD [] }
      else .exitErr
  | .char 'b' =>
      if env.editor_ok then
        .cont { app with
          original_right_content := ((read_json env.parse_right).toOption).getD [] }
      else .exitErr
  | .char 'c' =>
      .cont { app with original_left_content := [], original_right_content := [] }
  | .char 'd' =>
      match compare_json_files env with
      | .ok (l, r) =>
          .cont { app with
            left_diff_result := l
            right_diff_result := r
            display_diff := true }
      | .error _ => .exitErr
  | .char 'q' => .exitOk
  | _ => .cont app

example :
    diff_json_values (.obj [("a", .num 1), ("b", .num 2)])
      (.obj [("a", .num 1), ("b", .num 3), ("c", .num 4)]) =
    ([⟨"a: 1\n", .green⟩, ⟨"b: 2\n", .green⟩, ⟨"c: null\n", .green⟩],
     [⟨"a: 1\n", .green⟩, ⟨"b: 3\n", .red⟩, ⟨"c: 4\n", .red⟩]) := by decide

example :
    diff_json_values (.arr [.num 1, .num 2, .num 3]) (.arr [.num 1, .num 2, .num 4]) =
    ([⟨"[1,2,3]", .green⟩], [⟨"[1,2,4]", .red⟩]) := by decide

theorem strLtB_irrefl : ∀ l : List Char, strLtB l l = false
  | [] => rfl
  | a :: as => by
      simp only [strLtB, Nat.lt_irrefl, if_false]
      exact strLtB_irrefl as

theorem strLtB_asymm : ∀ {a b : List Char}, strLtB a b = true → strLtB b a = false
  | _, [], h => by simp [strLtB] at h
  | [], _ :: _, _ => rfl
  | x :: xs, y :: ys, h => by
      simp only [strLtB] at h ⊢
      by_cases h1 : x.toNat < y.toNat
      · have h2 : ¬ y.toNat < x.toNat := Nat.lt_asymm h1
        rw [if_neg h2, if_pos h1]
      · rw [if_neg h1] at h
        by_cases h2 : y.toNat < x.toNat
        · rw [if_pos h2] at h
          exact absurd h (by simp)
        · rw [if_neg h2] at h
          rw [if_neg h2, if_neg h1]
          exact strLtB_asymm h

theorem strLtB_trans :
    ∀ {a b c : List Char}, strLtB a b = true → strLtB b c = true → strLtB a c = true
  | _, b, [], _, hbc => by simp [strLtB] at hbc
  | a, [], _ :: _, hab, _ => by simp [strLtB] at hab
  | [], _ :: _, _ :: _, _, _ => rfl
  | x :: xs, y :: ys, z :: zs, hab, hbc => by
      simp only [strLtB] at hab hbc ⊢
      by_cases h1 : x.toNat < y.toNat
      · by_cases h2 : y.toNat < z.toNat
        · rw [if_pos (Nat.lt_trans h1 h2)]
        · rw [if_neg h2] at hbc
          by_cases h3 : z.toNat < y.toNat
          · rw [if_pos h3] at hbc
            exact absurd hbc (by simp)
          · have hyz : y.toNat = z.toNat :=
              Nat.le_antisymm (Nat.le_of_not_lt h3) (Nat.le_of_not_lt h2)
            rw [if_pos (hyz ▸ h1)]
      · rw [if_neg h1] at hab
        by_cases h4 : y.toNat < x.toNat
        · rw [if_pos h4] at hab
          exact absurd hab (by simp)
        · rw [if_neg h4] at hab
          have hxy : x.toNat = y.toNat :=
            Nat.le_antisymm (Nat.le_of_not_lt h4) (Nat.le_of_not_lt h1)
          by_cases h2 : y.toNat < z.toNat
          · rw [if_pos (hxy ▸ h2)]
          · rw [if_neg h2] at hbc
            by_cases h3 : z.toNat < y.toNat
            · rw [if_pos h3] at hbc
              exact absurd hbc (by simp)
            · rw [if_neg h3] at hbc
              have h5 : ¬ x.toNat < z.toNat := by omega
              have h6 : ¬ z.toNat < x.toNat := by omega
              rw [if_neg h5, if_neg h6]
              exact strLtB_trans hab hbc

theorem strLtB_connex :
    ∀ {a b : List Char}, strLtB a b = false → strLtB b a = false → a = b
  | [], [], _, _ => rfl
  | [], _ :: _, hab, _ => by simp [strLtB] at hab
  | _ :: _, [], _, hba => by simp [strLtB] at hba
  | x :: xs, y :: ys, hab, hba => by
      simp only [strLtB] at hab hba
      by_cases h1 : x.toNat < y.toNat
      · rw [if_pos h1] at hab
        exact absurd hab (by simp)
      · rw [if_neg h1] at hab
        by_cases h2 : y.toNat < x.toNat
        · rw [if_pos h2] at hba
          exact absurd hba (by simp)
        · rw [if_neg h2] at hab
          rw [if_neg h2, if_neg h1] at hba
          have hxy : x.toNat = y.toNat :=
            Nat.le_antisymm (Nat.le_of_not_lt h2) (Nat.le_of_not_lt h1)
          have hc : x = y := Char.eq_of_val_eq (UInt32.ext hxy)
          rw [hc, strLtB_connex hab hba]

theorem keyLt_irrefl (x : String) : keyLt x x = false :=
  strLtB_irrefl x.data

theorem keyLt_asymm {x y : String} (h : keyLt x y = true) : keyLt y x = false :=
  strLtB_asymm h

theorem keyLt_trans {x y z : String} (h1 : keyLt x y = true) (h2 : keyLt y z = true) :
    keyLt x z = true :=
  strLtB_trans h1 h2

theorem keyLt_connex {x y : String} (h1 : keyLt x y = false) (h2 : keyLt y x = false) :
    x = y := by
  cases x with
  | mk xd =>
    cases y with
    | mk yd =>
      exact congrArg String.mk (strLtB_connex h1 h2)

theorem keyLt_ne {x y : String} (h : keyLt x y = true) : x ≠ y := by
  intro he
  rw [he, keyLt_irrefl] at h
  exact absurd h (by simp)

theorem mem_insertKey (a x : String) (l : List String) :
    a ∈ insertKey x l ↔ a = x ∨ a ∈ l := by
  induction l with
  | nil => simp [insertKey]
  | cons y ys ih =>
    simp only [insertKey]
    split_ifs with h1 h2
    · simp only [List.mem_cons]
    · subst h2
      simp only [List.mem_cons]
      tauto
    · simp only [List.mem_cons, ih]
      tauto

theorem pairwise_insertKey (x : String) {l : List String}
    (h : l.Pairwise (fun a b => keyLt a b = true)) :
    (insertKey x l).Pairwise (fun a b => keyLt a b = true) := by
  induction l with
  | nil => simp [insertKey]
  | cons y ys ih =>
    rw [List.pairwise_cons] at h
    obtain ⟨hy, hys⟩ := h
    simp only [insertKey]
    split_ifs with h1 h2
    · refine List.Pairwise.cons ?_ (List.Pairwise.cons hy hys)
      intro b hb
      rcases List.mem_cons.mp hb with rfl | hb
      · exact h1
      · exact keyLt_trans h1 (hy b hb)
    · exact List.Pairwise.cons hy hys
    · refine List.Pairwise.cons ?_ (ih hys)
      intro b hb
      rcases (mem_insertKey b x ys).mp hb with rfl | hb
      · by_contra hc
        exact h2 (keyLt_connex (by simpa using h1) (by simpa using hc))
      · exact hy b hb

theorem keySet_go_pairwise :
    ∀ (l acc : List String), acc.Pairwise (fun a b => keyLt a b = true) →
      (l.foldl (fun s k => insertKey k s) acc).Pairwise (fun a b => keyLt a b = true)
  | [], _, h => h
  | k :: ks, acc, h => keySet_go_pairwise ks (insertKey k acc) (pairwise_insertKey k h)

theorem mem_keySet_go :
    ∀ (l acc : List String) (a : String),
      a ∈ l.foldl (fun s k => insertKey k s) acc ↔ a ∈ acc ∨ a ∈ l
  | [], acc, a => by simp
  | k :: ks, acc, a => by
      rw [List.foldl_cons, mem_keySet_go ks (insertKey k acc) a, mem_insertKey a k acc]
      simp only [List.mem_cons]
      tauto

theorem keySet_pairwise (l : List String) :
    (keySet l).Pairwise (fun a b => keyLt a b = true) :=
  keySet_go_pairwise l [] List.Pairwise.nil

theorem mem_keySet (l : List String) (a : String) : a ∈ keySet l ↔ a ∈ l := by
  rw [keySet, mem_keySet_go]
  simp

theorem keyLt_pairwise_ext :
    ∀ {l1 l2 : List String}, l1.Pairwise (fun a b => keyLt a b = true) →
      l2.Pairwise (fun a b => keyLt a b = true) →
      (∀ a, a ∈ l1 ↔ a ∈ l2) → l1 = l2
  | [], [], _, _, _ => rfl
  | [], b :: bs, _, _, hm => absurd ((hm b).mpr (List.mem_cons_self b bs)) (by simp)
  | a :: as, [], _, _, hm => absurd ((hm a).mp (List.mem_cons_self a as)) (by simp)
  | a :: as, b :: bs, h1, h2, hm => by
      rw [List.pairwise_cons] at h1 h2
      have hab : a = b := by
        rcases List.mem_cons.mp ((hm a).mp (List.mem_cons_self a as)) with h | h
        · exact h
        · rcases List.mem_cons.mp ((hm b).mpr (List.mem_cons_self b bs)) with h3 | h3
          · exact h3.symm
          · have hba := h2.1 a h
            have hab2 := h1.1 b h3
            rw [keyLt_asymm hab2] at hba
            exact absurd hba (by simp)
      subst hab
      have htails : ∀ x, x ∈ as ↔ x ∈ bs := by
        intro x
        constructor
        · intro hx
          rcases List.mem_cons.mp ((hm x).mp (List.mem_cons_of_mem a hx)) with rfl | h
          · exact absurd (h1.1 x hx) (fun hc => keyLt_ne hc rfl)
          · exact h
        · intro hx
          rcases List.mem_cons.mp ((hm x).mpr (List.mem_cons_of_mem a hx)) with rfl | h
          · exact absurd (h2.1 x hx) (fun hc => keyLt_ne hc rfl)
          · exact h
      exact congrArg (a :: ·) (keyLt_pairwise_ext h1.2 h2.2 htails)

theorem allKeys_pairwise (lm rm : List (String × JValue)) :
    (allKeys lm rm).Pairwise (fun a b => keyLt a b = true) :=
  keySet_pairwise _

theorem mem_allKeys (lm rm : List (String × JValue)) (a : String) :
    a ∈ allKeys lm rm ↔ a ∈ lm.map Prod.fst ∨ a ∈ rm.map Prod.fst := by
  rw [allKeys, mem_keySet, List.mem_append]

theorem allKeys_nodup (lm rm : List (String × JValue)) : (allKeys lm rm).Nodup :=
  (allKeys_pairwise lm rm).imp keyLt_ne

theorem allKeys_comm (lm rm : List (String × JValue)) :
    allKeys rm lm = allKeys lm rm :=
  keyLt_pairwise_ext (allKeys_pairwise rm lm) (allKeys_pairwise lm rm) (by
    intro a
    rw [mem_allKeys, mem_allKeys]
    tauto)

theorem as_object_eq_some {v : JValue} {m : List (String × JValue)} :
    v.as_object = some m ↔ v = JValue.obj m := by
  cases v <;> simp [JValue.as_object]

theorem diff_obj_def (lm rm : List (String × JValue)) :
    diff_json_values (.obj lm) (.obj rm) =
      (((allKeys lm rm).map (diffKey lm rm)).map Prod.fst,
       ((allKeys lm rm).map (diffKey lm rm)).map Prod.snd) := rfl

theorem diff_fallback {left right : JValue}
    (h : left.as_object = none ∨ right.as_object = none) :
    diff_json_values left right =
      ([⟨render left, Color.green⟩], [⟨render right, Color.red⟩]) := by
  cases hl : left.as_object with
  | none =>
    cases hr : right.as_object <;> simp [diff_json_values, hl, hr]
  | some lm =>
    cases hr : right.as_object with
    | none => simp [diff_json_values, hl, hr]
    | some rm =>
      rcases h with h | h
      · rw [hl] at h; exact absurd h (by simp)
      · rw [hr] at h; exact absurd h (by simp)

theorem diff_obj_fst_getElem (lm rm : List (String × JValue)) (i : Nat) :
    ((diff_json_values (.obj lm) (.obj rm)).1)[i]? =
      ((allKeys lm rm)[i]?).map (fun a => (diffKey lm rm a).1) := by
  rw [diff_obj_def]
  simp only [List.getElem?_map, List.map_map]
  rfl

theorem diff_obj_snd_getElem (lm rm : List (String × JValue)) (i : Nat) :
    ((diff_json_values (.obj lm) (.obj rm)).2)[i]? =
      ((allKeys lm rm)[i]?).map (fun a => (diffKey lm rm a).2) := by
  rw [diff_obj_def]
  simp only [List.getElem?_map, List.map_map]
  rfl

theorem diffKey_eq_case (lm rm : List (String × JValue)) (k : String)
    (h : lookupOrNull lm k = lookupOrNull rm k) :
    diffKey lm rm k =
      (⟨k ++ ": " ++ render (lookupOrNull lm k) ++ "\n", Color.green⟩,
       ⟨k ++ ": " ++ render (lookupOrNull lm k) ++ "\n", Color.green⟩) := by
  simp [diffKey, h]

theorem diffKey_ne_case (lm rm : List (String × JValue)) (k : String)
    (h : lookupOrNull lm k ≠ lookupOrNull rm k) :
    diffKey lm rm k =
      (⟨k ++ ": " ++ render (lookupOrNull lm k) ++ "\n", Color.green⟩,
       ⟨k ++ ": " ++ render (lookupOrNull rm k) ++ "\n", Color.red⟩) := by
  simp [diffKey, h]

theorem diffKey_swap (lm rm : List (String × JValue)) (k : String) :
    (diffKey rm lm k).1.text = (diffKey lm rm k).2.text ∧
    (diffKey rm lm k).2.text = (diffKey lm rm k).1.text ∧
    (diffKey rm lm k).1.color = (diffKey lm rm k).1.color ∧
    (diffKey rm lm k).2.color = (diffKey lm rm k).2.color := by
  by_cases h : lookupOrNull lm k = lookupOrNull rm k
  · rw [diffKey_eq_case lm rm k h, diffKey_eq_case rm lm k h.symm, h]
    exact ⟨rfl, rfl, rfl, rfl⟩
  · rw [diffKey_ne_case lm rm k h, diffKey_ne_case rm lm k (fun hh => h hh.symm)]
    exact ⟨rfl, rfl, rfl, rfl⟩

theorem lookup_filter_ne :
    ∀ (m : List (String × JValue)) (k : String),
      List.lookup k (m.filter (fun p => p.1 != k)) = none
  | [], _ => rfl
  | (a, v) :: ms, k => by
      by_cases h : a = k
      · simpa [List.filter, h] using lookup_filter_ne ms k
      · have hne : (a != k) = true := by simp [bne, h]
        have hke : (k == a) = false := beq_eq_false_iff_ne.mpr (fun hh => h hh.symm)
        have h1 : List.filter (fun p => p.1 != k) ((a, v) :: ms) =
            (a, v) :: List.filter (fun p => p.1 != k) ms := by
          simp [List.filter_cons, hne]
        rw [h1]
        simp only [List.lookup, hke]
        exact lookup_filter_ne ms k

/-- C1: for two mappings, at the line index of each key of the key union,
equal values (missing looked up as null) give the same green "unchanged" line
on both sides, while differing values give the left value's line in the
neutral green on the left and the right value's line in red on the right. -/
theorem diff_obj_line_at_key (lm rm : List (String × JValue)) (i : Nat) (k : String)
    (hk : (allKeys lm rm)[i]? = some k) :
    (lookupOrNull lm k = lookupOrNull rm k →
      ((diff_json_values (.obj lm) (.obj rm)).1)[i]? =
        some ⟨k ++ ": " ++ render (lookupOrNull lm k) ++ "\n", Color.green⟩ ∧
      ((diff_json_values (.obj lm) (.obj rm)).2)[i]? =
        some ⟨k ++ ": " ++ render (lookupOrNull lm k) ++ "\n", Color.green⟩) ∧
    (lookupOrNull lm k ≠ lookupOrNull rm k →
      ((diff_json_values (.obj lm) (.obj rm)).1)[i]? =
        some ⟨k ++ ": " ++ render (lookupOrNull lm k) ++ "\n", Color.green⟩ ∧
      ((diff_json_values (.obj lm) (.obj rm)).2)[i]? =
        some ⟨k ++ ": " ++ render (lookupOrNull rm k) ++ "\n", Color.red⟩) := by
  have h1 := diff_obj_fst_getElem lm rm i
  have h2 := diff_obj_snd_getElem lm rm i
  rw [hk] at h1 h2
  simp only [Option.map_some'] at h1 h2
  constructor
  · intro heq
    rw [diffKey_eq_case lm rm k heq] at h1 h2
    exact ⟨h1, h2⟩
  · intro hne
    rw [diffKey_ne_case lm rm k hne] at h1 h2
    exact ⟨h1, h2⟩

theorem diff_obj_line_at_key_witness :
    (allKeys [("a", JValue.num 1)] [("a", JValue.num 2)])[0]? = some "a" ∧
    lookupOrNull [("a", JValue.num 1)] "a" ≠ lookupOrNull [("a", JValue.num 2)] "a" ∧
    ((diff_json_values (.obj [("a", JValue.num 1)]) (.obj [("a", JValue.num 2)])).1)[0]? =
      some ⟨"a" ++ ": " ++ render (lookupOrNull [("a", JValue.num 1)] "a") ++ "\n",
        Color.green⟩ ∧
    ((diff_json_values (.obj [("a", JValue.num 1)]) (.obj [("a", JValue.num 2)])).2)[0]? =
      some ⟨"a" ++ ": " ++ render (lookupOrNull [("a", JValue.num 2)] "a") ++ "\n",
        Color.red⟩ :=
  ⟨by decide, by decide,
   ((diff_obj_line_at_key [("a", JValue.num 1)] [("a", JValue.num 2)] 0 "a"
      (by decide)).2 (by decide)).1,
   ((diff_obj_line_at_key [("a", JValue.num 1)] [("a", JValue.num 2)] 0 "a"
      (by decide)).2 (by decide)).2⟩

/-- C2: the two returned sequences always have equal length; in the mapping
case the lines at index i on both sides carry the key at index i of the
sorted key union, and otherwise each side is the single line holding its own
value's fallback string form. -/
theorem diff_result_aligned (left right : JValue) :
    ((diff_json_values left right).1.length = (diff_json_values left right).2.length) ∧
    (∀ lm rm, left = JValue.obj lm → right = JValue.obj rm →
      ∀ (i : Nat) (k : String), (allKeys lm rm)[i]? = some k →
        (∃ s : String, ((diff_json_values left right).1)[i]? =
            some ⟨k ++ ": " ++ s ++ "\n", Color.green⟩) ∧
        (∃ (s : String) (c : Color), ((diff_json_values left right).2)[i]? =
            some ⟨k ++ ": " ++ s ++ "\n", c⟩)) ∧
    ((left.as_object = none ∨ right.as_object = none) →
      (diff_json_values left right).1 = [⟨render left, Color.green⟩] ∧
      (diff_json_values left right).2 = [⟨render right, Color.red⟩]) := by
  refine ⟨?_, ?_, ?_⟩
  · cases hl : left.as_object with
    | none =>
      rw [diff_fallback (Or.inl hl)]
      rfl
    | some lm =>
      cases hr : right.as_object with
      | none =>
        rw [diff_fallback (Or.inr hr)]
        rfl
      | some rm =>
        rw [as_object_eq_some.mp hl, as_object_eq_some.mp hr, diff_obj_def]
        simp
  · intro lm rm hL hR i k hk
    subst hL
    subst hR
    have h1 := diff_obj_fst_getElem lm rm i
    have h2 := diff_obj_snd_getElem lm rm i
    rw [hk] at h1 h2
    simp only [Option.map_some'] at h1 h2
    by_cases heq : lookupOrNull lm k = lookupOrNull rm k
    · rw [diffKey_eq_case lm rm k heq] at h1 h2
      exact ⟨⟨render (lookupOrNull lm k), h1⟩,
             ⟨render (lookupOrNull lm k), Color.green, h2⟩⟩
    · rw [diffKey_ne_case lm rm k heq] at h1 h2
      exact ⟨⟨render (lookupOrNull lm k), h1⟩,
             ⟨render (lookupOrNull rm k), Color.red, h2⟩⟩
  · intro h
    rw [diff_fallback h]
    exact ⟨rfl, rfl⟩

theorem diff_result_aligned_witness :
    (allKeys [("a", JValue.num 1)] [("b", JValue.num 2)])[0]? = some "a" ∧
    ((∃ s, ((diff_json_values (.obj [("a", JValue.num 1)])
          (.obj [("b", JValue.num 2)])).1)[0]? =
        some ⟨"a" ++ ": " ++ s ++ "\n", Color.green⟩) ∧
     (∃ s c, ((diff_json_values (.obj [("a", JValue.num 1)])
          (.obj [("b", JValue.num 2)])).2)[0]? =
        some ⟨"a" ++ ": " ++ s ++ "\n", c⟩)) :=
  ⟨by decide,
   (diff_result_aligned (.obj [("a", JValue.num 1)]) (.obj [("b", JValue.num 2)])).2.1
     _ _ rfl rfl 0 "a" (by decide)⟩

/-- C3: the keys of the diff output are exactly the union of the two key
sets, each once, in ascending lexicographic order independent of insertion
order; concretely keys b,a,c versus a give output key order a, b, c. -/
theorem diff_keys_sorted_union :
    (∀ lm rm : List (String × JValue),
      (allKeys lm rm).Pairwise (fun a b => keyLt a b = true) ∧
      (allKeys lm rm).Nodup ∧
      (∀ k, k ∈ allKeys lm rm ↔ k ∈ lm.map Prod.fst ∨ k ∈ rm.map Prod.fst)) ∧
    allKeys [("b", JValue.num 1), ("a", JValue.num 2), ("c", JValue.num 3)]
        [("a", JValue.num 4)] = ["a", "b", "c"] ∧
    ((diff_json_values
        (.obj [("b", JValue.num 1), ("a", JValue.num 2), ("c", JValue.num 3)])
        (.obj [("a", JValue.num 4)])).1).map StyledLine.text =
      ["a: 2\n", "b: 1\n", "c: 3\n"] :=
  ⟨fun lm rm => ⟨allKeys_pairwise lm rm, allKeys_nodup lm rm, mem_allKeys lm rm⟩,
   by decide, by decide⟩

/-- C4: swapping the two mappings keeps the key set and the line count,
swaps the left and right line texts, and keeps the per-side color layout, so
the changed (red) mark switches to the other document's lines. -/
theorem diff_swap_sides (lm rm : List (String × JValue)) :
    allKeys rm lm = allKeys lm rm ∧
    (diff_json_values (.obj rm) (.obj lm)).1.length =
      (diff_json_values (.obj lm) (.obj rm)).1.length ∧
    (diff_json_values (.obj rm) (.obj lm)).1.map StyledLine.text =
      (diff_json_values (.obj lm) (.obj rm)).2.map StyledLine.text ∧
    (diff_json_values (.obj rm) (.obj lm)).2.map StyledLine.text =
      (diff_json_values (.obj lm) (.obj rm)).1.map StyledLine.text ∧
    (diff_json_values (.obj rm) (.obj lm)).1.map StyledLine.color =
      (diff_json_values (.obj lm) (.obj rm)).1.map StyledLine.color ∧
    (diff_json_values (.obj rm) (.obj lm)).2.map StyledLine.color =
      (diff_json_values (.obj lm) (.obj rm)).2.map StyledLine.color := by
  have hcomm := allKeys_comm lm rm
  refine ⟨hcomm, ?_, ?_, ?_, ?_, ?_⟩
  · rw [diff_obj_def, diff_obj_def, hcomm]
    simp
  · rw [diff_obj_def, diff_obj_def, hcomm]
    simp only [List.map_map]
    exact List.map_congr_left (fun a _ => (diffKey_swap lm rm a).1)
  · rw [diff_obj_def, diff_obj_def, hcomm]
    simp only [List.map_map]
    exact List.map_congr_left (fun a _ => (diffKey_swap lm rm a).2.1)
  · rw [diff_obj_def, diff_obj_def, hcomm]
    simp only [List.map_map]
    exact List.map_congr_left (fun a _ => (diffKey_swap lm rm a).2.2.1)
  · rw [diff_obj_def, diff_obj_def, hcomm]
    simp only [List.map_map]
    exact List.map_congr_left (fun a _ => (diffKey_swap lm rm a).2.2.2)

/-- C5: in the mapping case a key missing from one side is looked up as
null, and diff of x-null versus the empty mapping equals diff of x-null
versus x-null, line texts and styles included. -/
theorem diff_missing_key_null :
    (∀ (m : List (String × JValue)) (k : String),
      lookupOrNull (m.filter (fun p => p.1 != k)) k = JValue.null) ∧
    diff_json_values (.obj [("x", JValue.null)]) (.obj []) =
      diff_json_values (.obj [("x", JValue.null)]) (.obj [("x", JValue.null)]) :=
  ⟨fun m k => by rw [lookupOrNull, lookup_filter_ne]; rfl, by decide⟩

/-- C6: when at least one side is not a mapping, the diff skips key-wise
comparison and emits exactly one line per side, the left value's compact
string form in the neutral green and the right value's in red; concretely
so for the arrays [1,2,3] and [1,2,4]. -/
theorem diff_non_mapping_fallback :
    (∀ left right : JValue, (left.as_object = none ∨ right.as_object = none) →
      diff_json_values left right =
        ([⟨render left, Color.green⟩], [⟨render right, Color.red⟩])) ∧
    diff_json_values (.arr [.num 1, .num 2, .num 3]) (.arr [.num 1, .num 2, .num 4]) =
      ([⟨"[1,2,3]", Color.green⟩], [⟨"[1,2,4]", Color.red⟩]) :=
  ⟨fun _ _ h => diff_fallback h, by decide⟩

theorem diff_non_mapping_fallback_witness :
    ((JValue.num 5).as_object = none ∨ (JValue.str "a").as_object = none) ∧
    diff_json_values (JValue.num 5) (JValue.str "a") =
      ([⟨render (JValue.num 5), Color.green⟩],
       [⟨render (JValue.str "a"), Color.red⟩]) :=
  ⟨Or.inl rfl, diff_non_mapping_fallback.1 (JValue.num 5) (JValue.str "a") (Or.inl rfl)⟩

/-- C7: the diff computation is total: for every pair of parsed values it
returns a result pair, and every value variant has a defined rendering. -/
theorem diff_total :
    (∀ left right : JValue, ∃ L R : List StyledLine,
      diff_json_values left right = (L, R)) ∧
    (∀ v : JValue, ∃ s : String, render v = s) :=
  ⟨fun left right =>
    ⟨(diff_json_values left right).1, (diff_json_values left right).2, rfl⟩,
   fun v => ⟨render v, rfl⟩⟩

/-- C8: contrary to the spec, a parse failure while handling the diff key
makes the event loop return an error, terminating the application, instead
of continuing with the stored diff result unchanged. -/
theorem step_diff_parse_error_exits :
    step { parse_left := .error (), parse_right := .ok JValue.null, editor_ok := true }
      { left_diff_result := [⟨"a: 1\n", Color.green⟩],
        right_diff_result := [⟨"a: 1\n", Color.green⟩],
        original_left_content := [⟨"x: 1", Color.plain⟩],
        original_right_content := [⟨"y: 2", Color.plain⟩],
        display_diff := true }
      (KeyCode.char 'd') = StepResult.exitErr := by decide

/-- C9: contrary to the spec, when re-reading a side after an edit yields
malformed JSON the error is swallowed and that side's displayed content is
replaced by the empty default instead of being kept. -/
theorem step_edit_parse_error_blanks_display :
    step { parse_left := .error (), parse_right := .ok JValue.null, editor_ok := true }
      { left_diff_result := [],
        right_diff_result := [],
        original_left_content := [⟨"x: 1", Color.plain⟩],
        original_right_content := [],
        display_diff := false }
      (KeyCode.char 'a') =
    StepResult.cont
      { left_diff_result := [],
        right_diff_result := [],
        original_left_content := [],
        original_right_content := [],
        display_diff := false } := by decide

/-- C10: the fallback path never consults value equality: for any
non-mapping v, diff(v, v) still emits the right side in red and the left in
neutral green, and a green right-side line can only come from the mapping
path. -/
theorem diff_fallback_ignores_equality :
    (∀ v : JValue, v.as_object = none →
      diff_json_values v v = ([⟨render v, Color.green⟩], [⟨render v, Color.red⟩])) ∧
    (∀ left right : JValue, ∀ line ∈ (diff_json_values left right).2,
      line.color = Color.green →
      ∃ lm rm, left = JValue.obj lm ∧ right = JValue.obj rm) := by
  constructor
  · intro v hv
    exact diff_fallback (Or.inl hv)
  · intro left right line hmem hcol
    cases hl : left.as_object with
    | none =>
      rw [diff_fallback (Or.inl hl)] at hmem
      rw [List.mem_singleton.mp hmem] at hcol
      simp at hcol
    | some lm =>
      cases hr : right.as_object with
      | none =>
        rw [diff_fallback (Or.inr hr)] at hmem
        rw [List.mem_singleton.mp hmem] at hcol
        simp at hcol
      | some rm =>
        exact ⟨lm, rm, as_object_eq_some.mp hl, as_object_eq_some.mp hr⟩

theorem diff_fallback_ignores_equality_witness :
    (JValue.num 5).as_object = none ∧
    diff_json_values (JValue.num 5) (JValue.num 5) =
      ([⟨render (JValue.num 5), Color.green⟩],
       [⟨render (JValue.num 5), Color.red⟩]) ∧
    (∃ lm rm, JValue.obj [("a", JValue.null)] = JValue.obj lm ∧
      JValue.obj [("a", JValue.null)] = JValue.obj rm) :=
  ⟨rfl, diff_fallback_ignores_equality.1 (JValue.num 5) rfl,
   diff_fallback_ignores_equality.2 (JValue.obj [("a", JValue.null)])
     (JValue.obj [("a", JValue.null)]) ⟨"a: null\n", Color.green⟩ (by decide) rfl⟩
